import Mathlib

/-!
Verification development for the Synth repository: a shallow embedding of
the Oscillator (src/src/Oscillator.cpp), the MidiController event pipeline
(src/src/MidiController.cpp) and the AudioDevice playback path
(src/src/AudioDevice.cpp, src/AudioDevice.hpp), with theorems settling the
frozen specification claims.

C++ doubles are modelled as real numbers; machine integers as Nat/Int.
The headers Definitions.hpp, Oscillator.hpp and MidiController.hpp are not
among the sources; the constants TWOPI and PI and the MidiEvent record are
modelled from the spec (TWOPI is 2*pi, PI is pi, MidiEvent carries
type/note/control/velocity/pitch), everything else is translated directly
from the .cpp files.
-/

namespace Synth

noncomputable section

/-- TWOPI from Definitions.hpp (header absent; modelled from the spec's
phase range [0, 2*pi)). -/
def twopi : ℝ := 2 * Real.pi

/-- enum OscillatorWave from Oscillator.hpp, as used by Oscillator.cpp. -/
inductive OscillatorWave where
  | sine
  | saw
  | square
  | triangle
deriving DecidableEq

/-- Oscillator state. The sample rate is a class-wide static in the source
(one global clock shared by all oscillators); with a single oscillator
modelled it is carried as a state field. -/
structure Oscillator where
  mode : OscillatorWave
  freq : ℝ
  pitch : ℝ
  phase : ℝ
  phaseIncrement : ℝ
  muted : Bool
  lastOut : ℝ
  useNaive : Bool
  rate : ℝ

namespace Oscillator

/-- Oscillator::setIncrement (Oscillator.cpp:65-74). -/
def setIncrement (s : Oscillator) : Oscillator :=
  let pitchModAsFrequency : ℝ := (2 : ℝ) ^ (|s.pitch| * 14) - 1
  let pitchModAsFrequency : ℝ :=
    if s.pitch < 0 then -pitchModAsFrequency else pitchModAsFrequency
  let freq : ℝ := min (max (s.freq + pitchModAsFrequency) 0) (s.rate / 2)
  { s with phaseIncrement := freq * twopi / s.rate }

/-- The freshly constructed Oscillator (Oscillator.cpp:7-18): square mode,
440 Hz, no bend, phase 0, unmuted, with the static rate initialized
to 44100 (Oscillator.cpp:5), and setIncrement run by the constructor. -/
def init : Oscillator :=
  setIncrement
    { mode := .square, freq := 440, pitch := 0, phase := 0,
      phaseIncrement := 0, muted := false, lastOut := 0,
      useNaive := false, rate := 44100 }

/-- Oscillator::setMode (Oscillator.cpp:20-24). -/
def setMode (m : OscillatorWave) (s : Oscillator) : Oscillator :=
  { s with mode := m }

/-- Oscillator::setFreq (Oscillator.cpp:26-31). -/
def setFreq (f : ℝ) (s : Oscillator) : Oscillator :=
  setIncrement { s with freq := f }

/-- Oscillator::setPitch (Oscillator.cpp:33-38). -/
def setPitch (p : ℝ) (s : Oscillator) : Oscillator :=
  setIncrement { s with pitch := p }

/-- Oscillator::mute (Oscillator.cpp:40-44). -/
def mute (s : Oscillator) : Oscillator := { s with muted := true }

/-- Oscillator::unmute (Oscillator.cpp:46-50). -/
def unmute (s : Oscillator) : Oscillator := { s with muted := false }

/-- Oscillator::useNaive (Oscillator.cpp:52-56). -/
def setUseNaive (b : Bool) (s : Oscillator) : Oscillator :=
  { s with useNaive := b }

/-- Oscillator::setRate (Oscillator.cpp:58-63): sets the (static) sample
rate; note it does not recompute phaseIncrement. -/
def setRate (r : ℕ) (s : Oscillator) : Oscillator := { s with rate := (r : ℝ) }

/-- The phase-wrapping loop at Oscillator.cpp:130-131:
while (phase >= TWOPI) phase -= TWOPI. For an argument below TWOPI the
loop body never runs; otherwise repeated subtraction of TWOPI lands at
the representative x - TWOPI * floor(x / TWOPI) in [0, TWOPI). -/
def wrapPhase (x : ℝ) : ℝ :=
  if x < twopi then x else x - twopi * ⌊x / twopi⌋

/-- The phase update at the increment label (Oscillator.cpp:128-131). -/
def advancePhase (s : Oscillator) : Oscillator :=
  { s with phase := wrapPhase (s.phase + s.phaseIncrement) }

/-- Oscillator::polyBlep (Oscillator.cpp:76-94). -/
def polyBlep (s : Oscillator) (t : ℝ) : ℝ :=
  let dt := s.phaseIncrement / twopi
  if t < dt then
    let u := t / dt
    u + u - u * u - 1
  else if t > 1 - dt then
    let u := (t - 1) / dt
    u * u + u + u + 1
  else 0

/-- C truncation toward zero, for fmod. -/
def ctrunc (x : ℝ) : ℝ := if 0 ≤ x then (⌊x⌋ : ℝ) else (⌈x⌉ : ℝ)

/-- C fmod(x, 1.0) = x - trunc(x). -/
def cfmod1 (x : ℝ) : ℝ := x - ctrunc x

/-- Oscillator::naiveWave (Oscillator.cpp:135-162). -/
def naiveWave (s : Oscillator) : ℝ :=
  match s.mode with
  | .sine => Real.sin s.phase
  | .saw => 2 * s.phase / twopi - 1
  | .square => if s.phase < Real.pi then 1 else -1
  | .triangle => 2 * (|(-1 : ℝ) + 2 * s.phase / twopi| - 0.5)

/-- Oscillator::next (Oscillator.cpp:96-133). Returns the sample and the
updated state. If muted the function returns 0 before reaching the
increment label, so the state is left untouched. -/
def next (s : Oscillator) : ℝ × Oscillator :=
  let t := s.phase / twopi
  if s.muted then (0, s)
  else if s.useNaive then (naiveWave s, advancePhase s)
  else
    match s.mode with
    | .sine => (naiveWave s, advancePhase s)
    | .saw => (naiveWave s - polyBlep s t, advancePhase s)
    | m =>
      let v := naiveWave s + polyBlep s t - polyBlep s (cfmod1 (t + 0.5))
      if m = .triangle then
        let v2 := s.phaseIncrement * v + (1 - s.phaseIncrement) * s.lastOut
        (v2, advancePhase { s with lastOut := v2 })
      else (v, advancePhase s)

end Oscillator

/-- The public operations of the Oscillator, for stating state-machine
invariants over arbitrary call sequences. -/
inductive Op where
  | setMode (m : OscillatorWave)
  | setFreq (f : ℝ)
  | setPitch (p : ℝ)
  | setRate (r : ℕ)
  | mute
  | unmute
  | setUseNaive (b : Bool)
  | next

/-- Apply one Oscillator operation; a next call discards the sample. -/
def applyOp (s : Oscillator) : Op → Oscillator
  | .setMode m => Oscillator.setMode m s
  | .setFreq f => Oscillator.setFreq f s
  | .setPitch p => Oscillator.setPitch p s
  | .setRate r => Oscillator.setRate r s
  | .mute => Oscillator.mute s
  | .unmute => Oscillator.unmute s
  | .setUseNaive b => Oscillator.setUseNaive b s
  | .next => (Oscillator.next s).2

/-- Run a sequence of calls on a freshly constructed Oscillator. -/
def runOps (ops : List Op) : Oscillator := ops.foldl applyOp Oscillator.init

/-- The inductive invariant: a positive rate, a nonnegative phase
increment, and a phase in [0, twopi). -/
def OscInv (s : Oscillator) : Prop :=
  0 < s.rate ∧ 0 ≤ s.phaseIncrement ∧ 0 ≤ s.phase ∧ s.phase < Synth.twopi

/-- clamp(x, lo, hi), as the spec writes the frequency clamp. -/
def clamp (x lo hi : ℝ) : ℝ := min (max x lo) hi

/-- The spec's pitch-offset formula: sign(pitch) * (2^(|pitch|*14) - 1). -/
def specPitchOffset (p : ℝ) : ℝ := Real.sign p * ((2 : ℝ) ^ (|p| * 14) - 1)

/-! ## MidiController (src/src/MidiController.cpp) -/

/-- MidiEventType from MidiController.hpp (header absent; the six tags are
those used by MidiController.cpp and listed in the spec). -/
inductive MidiEventType where
  | noteon
  | noteoff
  | control
  | pitchbend
  | unhandled
  | empty
deriving DecidableEq

/-- MidiEvent from MidiController.hpp (header absent; fields modelled from
the spec's data model and the constructor calls in MidiController.cpp:
MidiEvent(type, note, control, velocity, pitch), remaining fields zero). -/
structure MidiEvent where
  type : MidiEventType
  note : ℤ
  control : ℝ
  velocity : ℝ
  pitch : ℝ

/-- MidiEvent(MIDI_EMPTY): the queue-empty sentinel. -/
def emptyEvent : MidiEvent := ⟨.empty, 0, 0, 0, 0⟩

/-- MidiController state: the parameter fields initialized by the
constructor (MidiController.cpp:118-122), the std::map of note on/off
states (none = the note was never seen), and the event queue. -/
structure MidiController where
  frequency : ℝ
  velocity : ℝ
  pitch : ℝ
  note : ℤ
  notes : ℤ → Option Bool
  queue : List MidiEvent

/-- noteToFrequency (MidiController.cpp:216-220). -/
def noteToFrequency (note : ℤ) : ℝ :=
  440 * (2 : ℝ) ^ (((note : ℝ) - 69) / 12)

/-- std::map operator[] assignment. -/
def mapInsert (m : ℤ → Option Bool) (k : ℤ) (v : Bool) : ℤ → Option Bool :=
  fun n => if n = k then some v else m n

/-- MidiController::nextEvent (MidiController.cpp:267-279): dequeue the
front event, or the MIDI_EMPTY sentinel when the queue is empty. -/
def nextEvent (s : MidiController) : MidiEvent × MidiController :=
  match s.queue with
  | [] => (emptyEvent, s)
  | e :: rest => (e, { s with queue := rest })

/-- MidiController::process (MidiController.cpp:222-253): clear the
last-touched note, dequeue one event, and fold it into the parameter
state. Note that the NOTEOFF branch updates the notes map and resets
frequency and velocity but does not set the note field, and that the
NOTEON branch tests the velocity for C truthiness (nonzero). -/
def process (s : MidiController) : MidiController :=
  let s0 := { s with note := -1 }
  let p := nextEvent s0
  let e := p.1
  let s1 := p.2
  if e.type = .empty then s1
  else
    match e.type with
    | .noteon =>
        if e.velocity ≠ 0 then
          { s1 with note := e.note, frequency := noteToFrequency e.note,
                    velocity := e.velocity,
                    notes := mapInsert s1.notes e.note true }
        else s1
    | .noteoff =>
        { s1 with notes := mapInsert s1.notes e.note false,
                  frequency := -1, velocity := 0 }
    | .pitchbend => { s1 with pitch := e.pitch }
    | _ => s1

/-- MidiController::noteOn (MidiController.cpp:207-214): false when the
note was never seen, otherwise the stored flag. -/
def noteOn (s : MidiController) (n : ℤ) : Bool := (s.notes n).getD false

/-- MidiController::input (MidiController.cpp:255-261): push one event
onto the back of the queue (under the queue lock in the source). -/
def input (s : MidiController) (e : MidiEvent) : MidiController :=
  { s with queue := s.queue ++ [e] }

/-- The raw ALSA sequencer event types distinguished by
_midi_event_process; other captures every unlisted hardware type. -/
inductive SeqEventType where
  | pitchbend
  | controller
  | noteon
  | noteoff
  | other
deriving DecidableEq

/-- The fields of snd_seq_event_t read by _midi_event_process: the note
data (note number and velocity) and the control data (param, value). -/
structure SeqEvent where
  type : SeqEventType
  note : ℤ
  noteVelocity : ℕ
  controlParam : ℤ
  controlValue : ℤ

/-- _midi_event_process (MidiController.cpp:6-65): normalize a raw
hardware event. A note-on with velocity 0 falls through with the initial
MIDI_UNHANDLED type and note 0. -/
def midiEventProcess (ev : SeqEvent) : MidiEvent :=
  match ev.type with
  | .pitchbend => ⟨.pitchbend, 0, 0, 0, (ev.controlValue : ℝ) / 8192⟩
  | .controller => ⟨.control, ev.controlParam, (ev.controlValue : ℝ) / 127, 0, 0⟩
  | .noteon =>
      if 0 < ev.noteVelocity then
        ⟨.noteon, ev.note, 0, (ev.noteVelocity : ℝ) / 127, 0⟩
      else ⟨.unhandled, 0, 0, 0, 0⟩
  | .noteoff => ⟨.noteoff, ev.note, 0, 0, 0⟩
  | .other => ⟨.unhandled, 0, 0, 0, 0⟩

/-- The capture thread's enqueue step (MidiController.cpp:110):
controller->input(_midi_event_process(seq_event)) for each raw event
read from the sequencer, in arrival order. -/
def captureEvents (s : MidiController) (raws : List SeqEvent) : MidiController :=
  raws.foldl (fun st ev => input st (midiEventProcess ev)) s

/-- A controller as just constructed (MidiController.cpp:118-122): silent
frequency sentinel, zero velocity and pitch, no notes seen, empty queue.
The note field starts at -1 (first process() always writes it). -/
def initController : MidiController :=
  ⟨-1, 0, 0, -1, fun _ => none, []⟩

/-! ## AudioDevice (src/src/AudioDevice.cpp and src/AudioDevice.hpp) -/

/-- samples_bytes = period_size * channels * format_width / 8
(AudioDevice.cpp:136) with format_width = 16 for S16. -/
def samplesBytes (periodSize channels : ℕ) : ℕ := periodSize * channels * 16 / 8

/-- num_samples = samples_bytes / sizeof(int16_t) (AudioDevice.cpp:137). -/
def numSamples (periodSize channels : ℕ) : ℕ := samplesBytes periodSize channels / 2

/-- One copy of ns samples from the caller's buffer, starting at index,
into the internal samples buffer (the inner loop of play). The buffer is
a total function modelling the int16_t pointer. -/
def copyChunk (buffer : ℕ → ℤ) (index ns : ℕ) : List ℤ :=
  (List.range ns).map fun i => buffer (index + i)

/-- The loop of AudioDevice::play (AudioDevice.cpp:210-215): for
(index = 0; index < length; index += num_samples) copy one chunk and
write it. Returns the chunks written, in order. The step must be
positive for the source loop to terminate. -/
def playLoop (buffer : ℕ → ℤ) (ns : ℕ) (hns : 0 < ns) (index length : ℕ) :
    List (List ℤ) :=
  if index < length then
    copyChunk buffer index ns :: playLoop buffer ns hns (index + ns) length
  else []
termination_by length - index
decreasing_by omega

/-- AudioDevice::play (AudioDevice.cpp:206-216): the defensive assertion
rejects (none) on a length that is not a multiple of num_samples, before
any write; otherwise the sequence of single-period writes is performed. -/
def play (buffer : ℕ → ℤ) (length ns : ℕ) (hns : 0 < ns) :
    Option (List (List ℤ)) :=
  if length % ns = 0 then some (playLoop buffer ns hns 0 length) else none

/-- The loop of the templated AudioDevice::play (AudioDevice.hpp:26-36):
identical copies of num_samples samples per iteration, but the index
strides by period_size frames rather than by num_samples. -/
def headerPlayLoop (buffer : ℕ → ℤ) (ps ns : ℕ) (hps : 0 < ps)
    (index length : ℕ) : List (List ℤ) :=
  if index < length then
    copyChunk buffer index ns :: headerPlayLoop buffer ps ns hps (index + ps) length
  else []
termination_by length - index
decreasing_by omega

/-- The templated AudioDevice::play (AudioDevice.hpp:26-36): asserts
length % period_size == 0, then runs the strided loop. -/
def headerPlay (buffer : ℕ → ℤ) (length ps ns : ℕ) (hps : 0 < ps) :
    Option (List (List ℤ)) :=
  if length % ps = 0 then some (headerPlayLoop buffer ps ns hps 0 length) else none

/-- Errno constants used by the playback path. -/
def EAGAIN : ℤ := 11

/-- Errno for a broken pipe, the ALSA underrun error code. -/
def EPIPE : ℤ := 32

/-- Errno for a suspended stream. -/
def ESTRPIPE : ℤ := 86

/-- xrun_recovery (AudioDevice.cpp:186-204): for an underrun (-EPIPE) the
stream is re-prepared and 0 is returned regardless of the prepare result
(a failed prepare is only printed); for a suspend (-ESTRPIPE) resume is
retried and 0 is returned likewise; any other error is returned as is.
The prepareResult and resumeResult arguments model the hardware calls'
results and are visibly irrelevant to the return value. -/
def xrunRecovery (prepareResult resumeResult err : ℤ) : ℤ :=
  if err = -EPIPE then 0
  else if err = -ESTRPIPE then 0
  else err

/-- The outcome of one AudioDevice::playSamples call: completion with the
number of recovery attempts made and the unconsumed write results, or a
fatal write error (exit(EXIT_FAILURE) in the source). -/
inductive PlayOutcome where
  | ok (recoveries : ℕ) (leftover : List ℤ)
  | fatal (err : ℤ)
deriving DecidableEq

/-- The write loop of AudioDevice::playSamples (AudioDevice.cpp:228-241):
while frames remain, call the blocking write (its successive results are
supplied by the writes oracle); retry on -EAGAIN, attempt recovery and
break (skipping the rest of the period) on any other negative result,
abort fatally if recovery fails, otherwise advance by the frames
written. none models running out of supplied write results. -/
def playSamplesLoop (pr rr : ℤ) (count : ℤ) (recoveries : ℕ)
    (writes : List ℤ) : Option PlayOutcome :=
  if count ≤ 0 then some (.ok recoveries writes)
  else
    match writes with
    | [] => none
    | w :: rest =>
      if w = -EAGAIN then playSamplesLoop pr rr count recoveries rest
      else if w < 0 then
        if xrunRecovery pr rr w < 0 then some (.fatal w)
        else some (.ok (recoveries + 1) rest)
      else playSamplesLoop pr rr (count - w) recoveries rest
termination_by writes.length
decreasing_by all_goals simp

/-- AudioDevice::playSamples (AudioDevice.cpp:218-242): one single-period
write of periodSize frames. -/
def playSamples (pr rr periodSize : ℤ) (writes : List ℤ) : Option PlayOutcome :=
  playSamplesLoop pr rr periodSize 0 writes

end

/-! ## Theorems -/

namespace Oscillator

@[simp] theorem setIncrement_mode (s : Oscillator) : (setIncrement s).mode = s.mode := rfl

@[simp] theorem setIncrement_phase (s : Oscillator) : (setIncrement s).phase = s.phase := rfl

@[simp] theorem setIncrement_muted (s : Oscillator) : (setIncrement s).muted = s.muted := rfl

@[simp] theorem setIncrement_rate (s : Oscillator) : (setIncrement s).rate = s.rate := rfl

@[simp] theorem setIncrement_useNaive (s : Oscillator) : (setIncrement s).useNaive = s.useNaive := rfl

@[simp] theorem mute_muted (s : Oscillator) : (mute s).muted = true := rfl

@[simp] theorem mute_phase (s : Oscillator) : (mute s).phase = s.phase := rfl

@[simp] theorem mute_phaseIncrement (s : Oscillator) : (mute s).phaseIncrement = s.phaseIncrement := rfl

@[simp] theorem mute_rate (s : Oscillator) : (mute s).rate = s.rate := rfl

@[simp] theorem unmute_muted (s : Oscillator) : (unmute s).muted = false := rfl

@[simp] theorem unmute_phase (s : Oscillator) : (unmute s).phase = s.phase := rfl

@[simp] theorem unmute_phaseIncrement (s : Oscillator) : (unmute s).phaseIncrement = s.phaseIncrement := rfl

@[simp] theorem unmute_mode (s : Oscillator) : (unmute s).mode = s.mode := rfl

@[simp] theorem unmute_useNaive (s : Oscillator) : (unmute s).useNaive = s.useNaive := rfl

@[simp] theorem advancePhase_phase (s : Oscillator) :
    (advancePhase s).phase = wrapPhase (s.phase + s.phaseIncrement) := rfl

@[simp] theorem advancePhase_rate (s : Oscillator) : (advancePhase s).rate = s.rate := rfl

@[simp] theorem advancePhase_phaseIncrement (s : Oscillator) :
    (advancePhase s).phaseIncrement = s.phaseIncrement := rfl

theorem twopi_pos : 0 < twopi := by
  unfold twopi
  positivity

/-- The state component of next(): when unmuted the phase advances by
phaseIncrement and wraps; when muted it is untouched. -/
theorem next_snd_phase (s : Oscillator) :
    (next s).2.phase = if s.muted then s.phase
      else wrapPhase (s.phase + s.phaseIncrement) := by
  cases hm : s.muted <;> cases hn : s.useNaive <;> cases hmo : s.mode <;>
    simp [next, hm, hn, hmo]

theorem next_snd_rate (s : Oscillator) : (next s).2.rate = s.rate := by
  cases hm : s.muted <;> cases hn : s.useNaive <;> cases hmo : s.mode <;>
    simp [next, hm, hn, hmo]

theorem next_snd_phaseIncrement (s : Oscillator) :
    (next s).2.phaseIncrement = s.phaseIncrement := by
  cases hm : s.muted <;> cases hn : s.useNaive <;> cases hmo : s.mode <;>
    simp [next, hm, hn, hmo]

theorem wrapPhase_nonneg {x : ℝ} (hx : 0 ≤ x) : 0 ≤ wrapPhase x := by
  unfold wrapPhase
  split
  · exact hx
  · have h1 : x - twopi * ⌊x / twopi⌋ = twopi * Int.fract (x / twopi) := by
      have hne : twopi ≠ 0 := ne_of_gt twopi_pos
      rw [Int.fract]
      field_simp
    rw [h1]
    exact mul_nonneg twopi_pos.le (Int.fract_nonneg _)

theorem wrapPhase_lt (x : ℝ) : wrapPhase x < twopi := by
  unfold wrapPhase
  split
  · assumption
  · have h1 : x - twopi * ⌊x / twopi⌋ = twopi * Int.fract (x / twopi) := by
      have hne : twopi ≠ 0 := ne_of_gt twopi_pos
      rw [Int.fract]
      field_simp
    rw [h1]
    calc twopi * Int.fract (x / twopi) < twopi * 1 :=
          (mul_lt_mul_left twopi_pos).mpr (Int.fract_lt_one _)
      _ = twopi := mul_one _

theorem setIncrement_phaseIncrement_nonneg {s : Oscillator} (h : 0 < s.rate) :
    0 ≤ (setIncrement s).phaseIncrement := by
  unfold setIncrement
  have h1 : (0 : ℝ) ≤ min (max (s.freq +
      (if s.pitch < 0 then -((2 : ℝ) ^ (|s.pitch| * 14) - 1)
        else (2 : ℝ) ^ (|s.pitch| * 14) - 1)) 0) (s.rate / 2) :=
    le_min (le_max_right _ _) (by positivity)
  exact div_nonneg (mul_nonneg h1 twopi_pos.le) h.le

/-- The conditional negation in setIncrement equals the spec's closed
formula sign(pitch) * (2^(|pitch|*14) - 1); at pitch 0 both are 0. -/
theorem pitchMod_eq_specPitchOffset (p : ℝ) :
    (if p < 0 then -((2 : ℝ) ^ (|p| * 14) - 1)
      else (2 : ℝ) ^ (|p| * 14) - 1) = specPitchOffset p := by
  unfold specPitchOffset
  rcases lt_trichotomy p 0 with hp | hp | hp
  · rw [if_pos hp, Real.sign_of_neg hp]
    ring
  · subst hp
    simp [Real.sign_zero, Real.rpow_zero]
  · rw [if_neg (not_lt.mpr hp.le), Real.sign_of_pos hp]
    ring

theorem setIncrement_phaseIncrement_eq (s : Oscillator) :
    (setIncrement s).phaseIncrement =
      twopi * clamp (s.freq + specPitchOffset s.pitch) 0 (s.rate / 2) / s.rate := by
  simp only [setIncrement, clamp]
  rw [pitchMod_eq_specPitchOffset]
  ring

end Oscillator

theorem oscInv_init : OscInv Oscillator.init := by
  refine ⟨by norm_num [Oscillator.init, Oscillator.setIncrement], ?_, ?_, ?_⟩
  · exact Oscillator.setIncrement_phaseIncrement_nonneg (by norm_num)
  · norm_num [Oscillator.init, Oscillator.setIncrement]
  · simpa [Oscillator.init] using Oscillator.twopi_pos

theorem oscInv_applyOp {s : Oscillator} (hs : OscInv s) (op : Op)
    (hrate : ∀ r, op = Op.setRate r → 0 < r) : OscInv (applyOp s op) := by
  obtain ⟨h1, h2, h3, h4⟩ := hs
  cases op with
  | setMode m => exact ⟨h1, h2, h3, h4⟩
  | setFreq f =>
      exact ⟨by simpa using h1, Oscillator.setIncrement_phaseIncrement_nonneg (by simpa using h1),
        by simpa using h3, by simpa using h4⟩
  | setPitch p =>
      exact ⟨by simpa using h1, Oscillator.setIncrement_phaseIncrement_nonneg (by simpa using h1),
        by simpa using h3, by simpa using h4⟩
  | setRate r =>
      have hr : 0 < r := hrate r rfl
      exact ⟨by simpa [applyOp, Oscillator.setRate] using Nat.cast_pos.mpr hr, h2, h3, h4⟩
  | mute => exact ⟨h1, h2, h3, h4⟩
  | unmute => exact ⟨h1, h2, h3, h4⟩
  | setUseNaive b => exact ⟨h1, h2, h3, h4⟩
  | next =>
      refine ⟨by simpa [applyOp] using (Oscillator.next_snd_rate s) ▸ h1, ?_, ?_, ?_⟩
      · simpa [applyOp, Oscillator.next_snd_phaseIncrement] using h2
      · rw [applyOp, Oscillator.next_snd_phase]
        split
        · exact h3
        · exact Oscillator.wrapPhase_nonneg (by linarith)
      · rw [applyOp, Oscillator.next_snd_phase]
        split
        · exact h4
        · exact Oscillator.wrapPhase_lt _

theorem process_empty_queue {s : MidiController} (h : s.queue = []) :
    process s = { s with note := -1 } := by
  simp [process, nextEvent, h, emptyEvent]

theorem process_cons_noteon {s : MidiController} {e : MidiEvent}
    {rest : List MidiEvent} (h : s.queue = e :: rest) (ht : e.type = .noteon)
    (hv : e.velocity ≠ 0) :
    process s = { s with
      queue := rest, note := e.note,
      frequency := noteToFrequency e.note, velocity := e.velocity,
      notes := mapInsert s.notes e.note true } := by
  simp [process, nextEvent, h, ht, hv]

theorem process_cons_noteon_zero {s : MidiController} {e : MidiEvent}
    {rest : List MidiEvent} (h : s.queue = e :: rest) (ht : e.type = .noteon)
    (hv : e.velocity = 0) :
    process s = { s with queue := rest, note := -1 } := by
  simp [process, nextEvent, h, ht, hv]

theorem process_cons_noteoff {s : MidiController} {e : MidiEvent}
    {rest : List MidiEvent} (h : s.queue = e :: rest) (ht : e.type = .noteoff) :
    process s = { s with
      queue := rest, note := -1, frequency := -1,
      velocity := 0, notes := mapInsert s.notes e.note false } := by
  simp [process, nextEvent, h, ht]

theorem process_cons_pitchbend {s : MidiController} {e : MidiEvent}
    {rest : List MidiEvent} (h : s.queue = e :: rest)
    (ht : e.type = .pitchbend) :
    process s = { s with queue := rest, note := -1, pitch := e.pitch } := by
  simp [process, nextEvent, h, ht]

theorem process_cons_control {s : MidiController} {e : MidiEvent}
    {rest : List MidiEvent} (h : s.queue = e :: rest) (ht : e.type = .control) :
    process s = { s with queue := rest, note := -1 } := by
  simp [process, nextEvent, h, ht]

theorem process_cons_unhandled {s : MidiController} {e : MidiEvent}
    {rest : List MidiEvent} (h : s.queue = e :: rest)
    (ht : e.type = .unhandled) :
    process s = { s with queue := rest, note := -1 } := by
  simp [process, nextEvent, h, ht]

theorem process_cons_empty {s : MidiController} {e : MidiEvent}
    {rest : List MidiEvent} (h : s.queue = e :: rest) (ht : e.type = .empty) :
    process s = { s with queue := rest, note := -1 } := by
  simp [process, nextEvent, h, ht]

theorem captureEvents_queue (raws : List SeqEvent) :
    ∀ s : MidiController,
      (captureEvents s raws).queue = s.queue ++ raws.map midiEventProcess := by
  induction raws with
  | nil => intro s; simp [captureEvents]
  | cons ev raws ih =>
      intro s
      simp only [captureEvents, List.foldl_cons, List.map_cons] at ih ⊢
      rw [ih]
      simp [input]

theorem numSamples_eq (periodSize channels : ℕ) :
    numSamples periodSize channels = periodSize * channels := by
  simp only [numSamples, samplesBytes]
  omega

theorem playLoop_eq (buffer : ℕ → ℤ) (ns : ℕ) (hns : 0 < ns) :
    ∀ (m index : ℕ), playLoop buffer ns hns index (index + m * ns) =
      (List.range m).map fun k => copyChunk buffer (index + k * ns) ns := by
  intro m
  induction m with
  | zero =>
      intro index
      rw [playLoop]
      simp
  | succ m ih =>
      intro index
      rw [playLoop]
      have hlt : index < index + (m + 1) * ns := by
        have : (m + 1) * ns = m * ns + ns := Nat.succ_mul m ns
        omega
      rw [if_pos hlt]
      have harr : index + (m + 1) * ns = index + ns + m * ns := by ring
      rw [harr, ih (index + ns)]
      rw [List.range_succ_eq_map, List.map_cons, List.map_map]
      have hfun : ((fun k => copyChunk buffer (index + k * ns) ns) ∘ Nat.succ)
          = fun k => copyChunk buffer (index + ns + k * ns) ns := by
        funext k
        simp only [Function.comp]
        congr 1
        rw [Nat.succ_mul]
        ring
      rw [hfun]
      norm_num

theorem headerPlayLoop_eq (buffer : ℕ → ℤ) (ps ns : ℕ) (hps : 0 < ps) :
    ∀ (m index : ℕ), headerPlayLoop buffer ps ns hps index (index + m * ps) =
      (List.range m).map fun k => copyChunk buffer (index + k * ps) ns := by
  intro m
  induction m with
  | zero =>
      intro index
      rw [headerPlayLoop]
      simp
  | succ m ih =>
      intro index
      rw [headerPlayLoop]
      have hlt : index < index + (m + 1) * ps := by
        have : (m + 1) * ps = m * ps + ps := Nat.succ_mul m ps
        omega
      rw [if_pos hlt]
      have harr : index + (m + 1) * ps = index + ps + m * ps := by ring
      rw [harr, ih (index + ps)]
      rw [List.range_succ_eq_map, List.map_cons, List.map_map]
      have hfun : ((fun k => copyChunk buffer (index + k * ps) ns) ∘ Nat.succ)
          = fun k => copyChunk buffer (index + ps + k * ps) ns := by
        funext k
        simp only [Function.comp]
        congr 1
        rw [Nat.succ_mul]
        ring
      rw [hfun]
      norm_num

theorem init_phase : Oscillator.init.phase = 0 := rfl

theorem init_phaseIncrement :
    Oscillator.init.phaseIncrement = 440 * twopi / 44100 := by
  simp only [Oscillator.init, Oscillator.setIncrement, abs_zero, zero_mul,
    Real.rpow_zero]
  norm_num [max_def, min_def]

theorem oscInv_foldl :
    ∀ (ops : List Op) (s : Oscillator), OscInv s →
      (∀ r, Op.setRate r ∈ ops → 0 < r) → OscInv (ops.foldl applyOp s)
  | [], s, hs, _ => hs
  | op :: ops, s, hs, hrate => by
      refine oscInv_foldl ops (applyOp s op)
        (oscInv_applyOp hs op fun r hr => hrate r (by simp [hr])) ?_
      intro r hr
      exact hrate r (List.mem_cons_of_mem _ hr)

theorem process_cons_queue {s : MidiController} {e : MidiEvent}
    {rest : List MidiEvent} (h : s.queue = e :: rest) :
    (process s).queue = rest := by
  cases ht : e.type with
  | noteon =>
      by_cases hv : e.velocity = 0
      · rw [process_cons_noteon_zero h ht hv]
      · rw [process_cons_noteon h ht hv]
  | noteoff => rw [process_cons_noteoff h ht]
  | control => rw [process_cons_control h ht]
  | pitchbend => rw [process_cons_pitchbend h ht]
  | unhandled => rw [process_cons_unhandled h ht]
  | empty => rw [process_cons_empty h ht]

/-! ## Claim C1 -/

/-- C1 counterexample: on the muted fresh oscillator (whose phase
increment is positive) next() leaves the phase at 0, while the unmuted
next() from the same state advances it to a positive value; so a muted
next() does not produce the phase an unmuted next() would have. -/
theorem osc_muted_phase_cex :
    (Oscillator.next (Oscillator.mute Oscillator.init)).2.phase ≠
      (Oscillator.next (Oscillator.unmute (Oscillator.mute Oscillator.init))).2.phase := by
  have hpos : (0 : ℝ) < 440 * twopi / 44100 :=
    div_pos (mul_pos (by norm_num) Oscillator.twopi_pos) (by norm_num)
  have hlt : 440 * twopi / 44100 < twopi := by
    have h2 := Oscillator.twopi_pos
    linarith
  have hmut : (Oscillator.next (Oscillator.mute Oscillator.init)).2.phase = 0 := by
    rw [Oscillator.next_snd_phase]
    have hb : (Oscillator.mute Oscillator.init).muted = true := rfl
    rw [hb]
    simp [init_phase]
  have hunm :
      (Oscillator.next (Oscillator.unmute (Oscillator.mute Oscillator.init))).2.phase
        = 440 * twopi / 44100 := by
    rw [Oscillator.next_snd_phase]
    have hb : (Oscillator.unmute (Oscillator.mute Oscillator.init)).muted = false := rfl
    have hph : (Oscillator.unmute (Oscillator.mute Oscillator.init)).phase = 0 := rfl
    have hinc : (Oscillator.unmute (Oscillator.mute Oscillator.init)).phaseIncrement
        = 440 * twopi / 44100 := init_phaseIncrement
    rw [hb, hph, hinc]
    simp only [Bool.false_eq_true, if_false, zero_add]
    rw [Oscillator.wrapPhase, if_pos hlt]
  rw [hmut, hunm]
  exact hpos.ne

/-- C1 (as amended): if the oscillator is muted, next() returns the
sample 0 and returns before the increment label, leaving the entire
state — in particular the phase — unchanged. -/
theorem osc_muted_next (s : Oscillator) (h : s.muted = true) :
    Oscillator.next s = (0, s) := by
  simp [Oscillator.next, h]

/-- Witness for osc_muted_next at the muted fresh oscillator. -/
theorem osc_muted_next_w :
    Oscillator.next (Oscillator.mute Oscillator.init) =
      (0, Oscillator.mute Oscillator.init) :=
  osc_muted_next _ rfl

/-! ## Claim C2 -/

/-- C2 counterexample: a raw note-on with velocity 0 normalizes to an
UNHANDLED event carrying note 0, not to a NOTE_OFF for its note. -/
theorem midi_noteon_vel0_cex :
    (midiEventProcess ⟨.noteon, 60, 0, 0, 0⟩).type = .unhandled ∧
    (midiEventProcess ⟨.noteon, 60, 0, 0, 0⟩).type ≠ .noteoff ∧
    (midiEventProcess ⟨.noteon, 60, 0, 0, 0⟩).note = 0 := by
  refine ⟨?_, ?_, ?_⟩ <;> simp [midiEventProcess]

/-- C2 (as amended): a raw note-on with velocity 0 is normalized to the
UNHANDLED event (note 0, no parameter effect); only an explicit raw
note-off is normalized to NOTE_OFF carrying that event's note. -/
theorem midi_noteon_vel0_unhandled (ev : SeqEvent) :
    (ev.type = .noteon → ev.noteVelocity = 0 →
      midiEventProcess ev = ⟨.unhandled, 0, 0, 0, 0⟩) ∧
    (ev.type = .noteoff →
      midiEventProcess ev = ⟨.noteoff, ev.note, 0, 0, 0⟩) := by
  constructor
  · intro ht hv
    simp [midiEventProcess, ht, hv]
  · intro ht
    simp [midiEventProcess, ht]

/-- Witness for midi_noteon_vel0_unhandled at a velocity-0 note-on. -/
theorem midi_noteon_vel0_unhandled_w :
    midiEventProcess ⟨.noteon, 60, 0, 0, 0⟩ = ⟨.unhandled, 0, 0, 0, 0⟩ :=
  (midi_noteon_vel0_unhandled _).1 rfl rfl

/-! ## Claim C3 -/

/-- C3 counterexample: capturing a single raw event whose normalization
is UNHANDLED (a velocity-0 note-on) leaves the queue containing exactly
one UNHANDLED event, so the queue does contain UNHANDLED events. -/
theorem capture_unhandled_cex :
    (captureEvents initController [⟨.noteon, 60, 0, 0, 0⟩]).queue.map MidiEvent.type
      = [MidiEventType.unhandled] := by
  simp [captureEvents, initController, input, midiEventProcess]

/-- C3 (as amended): the capture thread enqueues every normalized event,
including UNHANDLED ones, in arrival order; an UNHANDLED event is
discarded only at the reducer, where process() dequeues it and leaves
frequency, velocity, pitch and the notes map unchanged. -/
theorem capture_enqueues_all (s : MidiController) (raws : List SeqEvent) :
    (captureEvents s raws).queue = s.queue ++ raws.map midiEventProcess ∧
    (∀ e rest, s.queue = e :: rest → e.type = .unhandled →
      process s = { s with queue := rest, note := -1 }) :=
  ⟨captureEvents_queue raws s, fun _ _ h ht => process_cons_unhandled h ht⟩

/-- Witness for capture_enqueues_all: one captured velocity-0 note-on is
enqueued, and processing a queued UNHANDLED event only dequeues it. -/
theorem capture_enqueues_all_w :
    (captureEvents initController [⟨.noteon, 60, 0, 0, 0⟩]).queue
        = initController.queue ++ [⟨.noteon, 60, 0, 0, 0⟩].map midiEventProcess ∧
    process ⟨-1, 0, 0, -1, fun _ => none, [⟨.unhandled, 0, 0, 0, 0⟩]⟩ =
      { frequency := -1, velocity := 0, pitch := 0, note := -1,
        notes := fun _ => none, queue := [] } :=
  ⟨(capture_enqueues_all initController [⟨.noteon, 60, 0, 0, 0⟩]).1,
   (capture_enqueues_all ⟨-1, 0, 0, -1, fun _ => none,
      [⟨.unhandled, 0, 0, 0, 0⟩]⟩ []).2 ⟨.unhandled, 0, 0, 0, 0⟩ [] rfl rfl⟩

/-! ## Claim C4 -/

/-- C4: process() dequeues at most one event and folds it into the
parameter state as the reference reducer: NOTE_ON with velocity above 0
sets the current note, the frequency by the MIDI formula, the velocity,
and marks the note on; NOTE_OFF marks the note off and unconditionally
resets frequency to the negative silence sentinel and velocity to 0;
PITCHBEND sets only the pitch; CONTROL, UNHANDLED and queued EMPTY
events leave frequency, velocity, pitch and the notes map unchanged. -/
theorem midi_process_reducer (s : MidiController) :
    (s.queue = [] → process s = { s with note := -1 }) ∧
    (∀ e rest, s.queue = e :: rest →
      (process s).queue = rest ∧
      (e.type = .noteon → 0 < e.velocity →
        process s = { s with
          queue := rest, note := e.note,
          frequency := noteToFrequency e.note, velocity := e.velocity,
          notes := mapInsert s.notes e.note true }) ∧
      (e.type = .noteoff →
        process s = { s with
          queue := rest, note := -1, frequency := -1, velocity := 0,
          notes := mapInsert s.notes e.note false } ∧
        (process s).frequency < 0) ∧
      (e.type = .pitchbend →
        process s = { s with queue := rest, note := -1, pitch := e.pitch }) ∧
      (e.type = .control ∨ e.type = .unhandled ∨ e.type = .empty →
        process s = { s with queue := rest, note := -1 })) := by
  refine ⟨fun h => process_empty_queue h,
    fun e rest h => ⟨process_cons_queue h, ?_, ?_, ?_, ?_⟩⟩
  · intro ht hv
    exact process_cons_noteon h ht (ne_of_gt hv)
  · intro ht
    refine ⟨process_cons_noteoff h ht, ?_⟩
    rw [process_cons_noteoff h ht]
    norm_num
  · intro ht
    exact process_cons_pitchbend h ht
  · intro ht
    rcases ht with ht | ht | ht
    · exact process_cons_control h ht
    · exact process_cons_unhandled h ht
    · exact process_cons_empty h ht

/-- Witness for midi_process_reducer: processing NOTE_ON(60, 100/127)
from a fresh controller sets note 60, the MIDI frequency of note 60,
the velocity, and marks note 60 on. -/
theorem midi_process_reducer_w :
    process ⟨-1, 0, 0, -1, fun _ => none, [⟨.noteon, 60, 0, 100 / 127, 0⟩]⟩ =
      { frequency := noteToFrequency 60, velocity := 100 / 127, pitch := 0,
        note := 60, notes := mapInsert (fun _ => none) 60 true, queue := [] } :=
  ((midi_process_reducer _).2 ⟨.noteon, 60, 0, 100 / 127, 0⟩ [] rfl).2.1 rfl
    (by show (0 : ℝ) < 100 / 127; norm_num)

/-! ## Claim C5 -/

/-- C5: setFreq and setPitch immediately recompute phaseIncrement as
2pi * clamp(freq + pitchOffset, 0, rate/2) / rate, with pitchOffset the
spec formula sign(pitch) * (2^(|pitch|*14) - 1); the clamped effective
frequency is nonnegative and bounded by the Nyquist limit rate/2. -/
theorem osc_increment_formula (s : Oscillator) (f p : ℝ) (h : 0 < s.rate) :
    (Oscillator.setFreq f s).phaseIncrement =
      twopi * clamp (f + specPitchOffset s.pitch) 0 (s.rate / 2) / s.rate ∧
    (Oscillator.setPitch p s).phaseIncrement =
      twopi * clamp (s.freq + specPitchOffset p) 0 (s.rate / 2) / s.rate ∧
    0 ≤ clamp (f + specPitchOffset s.pitch) 0 (s.rate / 2) ∧
    clamp (f + specPitchOffset s.pitch) 0 (s.rate / 2) ≤ s.rate / 2 := by
  refine ⟨?_, ?_, ?_, ?_⟩
  · rw [Oscillator.setFreq, Oscillator.setIncrement_phaseIncrement_eq]
  · rw [Oscillator.setPitch, Oscillator.setIncrement_phaseIncrement_eq]
  · unfold clamp
    exact le_min (le_max_right _ _) (by linarith)
  · unfold clamp
    exact min_le_right _ _

/-- Witness for osc_increment_formula at a concrete oscillator state. -/
theorem osc_increment_formula_w :
    (Oscillator.setFreq 440
        ⟨.square, 440, 0, 0, 0, false, 0, false, 48000⟩).phaseIncrement =
      twopi * clamp (440 + specPitchOffset 0) 0 (48000 / 2) / 48000 :=
  (osc_increment_formula ⟨.square, 440, 0, 0, 0, false, 0, false, 48000⟩
    440 (1 / 2) (by show (0 : ℝ) < 48000; norm_num)).1

/-! ## Claim C6 -/

/-- C6: starting from a freshly constructed Oscillator, after any
sequence of setMode, setFreq, setPitch, setRate (with positive sample
rates), mute, unmute, useNaive and next calls, the phase satisfies
0 ≤ phase < 2pi. -/
theorem osc_phase_invariant (ops : List Op)
    (h : ∀ r, Op.setRate r ∈ ops → 0 < r) :
    0 ≤ (runOps ops).phase ∧ (runOps ops).phase < twopi := by
  have hinv := oscInv_foldl ops Oscillator.init oscInv_init h
  exact ⟨hinv.2.2.1, hinv.2.2.2⟩

/-- Witness for osc_phase_invariant on a concrete call sequence. -/
theorem osc_phase_invariant_w :
    0 ≤ (runOps [Op.setRate 48000, Op.setFreq 440, Op.next, Op.mute, Op.next]).phase ∧
      (runOps [Op.setRate 48000, Op.setFreq 440, Op.next, Op.mute, Op.next]).phase
        < twopi :=
  osc_phase_invariant _ (by
    intro r hr
    simp at hr
    omega)

/-! ## Claim C7 -/

/-- C7: the per-period sample count num_samples is periodSize*channels;
play() with a length that is not a multiple of it fails the defensive
assertion and rejects before any hardware write, and with a multiple it
copies each period-sized chunk in order into the internal buffer and
performs one single-period write per chunk. -/
theorem play_multiple_spec (buffer : ℕ → ℤ) (periodSize channels length : ℕ)
    (h : 0 < periodSize * channels) :
    numSamples periodSize channels = periodSize * channels ∧
    (¬ periodSize * channels ∣ length →
      play buffer length (periodSize * channels) h = none) ∧
    (periodSize * channels ∣ length →
      play buffer length (periodSize * channels) h =
        some ((List.range (length / (periodSize * channels))).map
          fun k => copyChunk buffer (k * (periodSize * channels))
            (periodSize * channels))) := by
  refine ⟨numSamples_eq _ _, ?_, ?_⟩
  · intro hnd
    rw [play, if_neg]
    intro hmod
    exact hnd (Nat.dvd_of_mod_eq_zero hmod)
  · intro hd
    obtain ⟨m, hm⟩ := hd
    subst hm
    rw [play, if_pos (Nat.mul_mod_right _ _)]
    rw [Nat.mul_div_cancel_left m h]
    have hlen : periodSize * channels * m = 0 + m * (periodSize * channels) := by
      ring
    rw [hlen, playLoop_eq]
    simp

/-- Witness for play_multiple_spec: four samples per period, eight
samples of buffer, two chunks written. -/
theorem play_multiple_spec_w :
    play (fun i => (i : ℤ)) 8 (2 * 2) (by norm_num) =
      some ((List.range (8 / (2 * 2))).map
        fun k => copyChunk (fun i => (i : ℤ)) (k * (2 * 2)) (2 * 2)) :=
  (play_multiple_spec (fun i => (i : ℤ)) 2 2 8 (by norm_num)).2.2 (by norm_num)

/-! ## Claim C8 -/

/-- C8: when the blocking write reports an underrun (-EPIPE), exactly
one recovery attempt is made (recovery always reports success for an
underrun, regardless of the prepare result), the remainder of the
current period is skipped rather than requeued (the later write results
are left untouched), and the call completes without aborting, so the
next period proceeds; a negative write result whose recovery returns
failure aborts the process. -/
theorem playSamples_underrun_recovery (pr rr period : ℤ) (hp : 0 < period)
    (rest : List ℤ) :
    playSamples pr rr period (-EPIPE :: rest) = some (.ok 1 rest) ∧
    xrunRecovery pr rr (-EPIPE) = 0 ∧
    (∀ w : ℤ, period ≤ w → playSamples pr rr period [w] = some (.ok 0 [])) ∧
    (∀ (err : ℤ) (rest' : List ℤ), err < 0 → err ≠ -EAGAIN →
      xrunRecovery pr rr err < 0 →
      playSamples pr rr period (err :: rest') = some (.fatal err)) := by
  have hnle : ¬ period ≤ 0 := not_le.mpr hp
  refine ⟨?_, ?_, ?_, ?_⟩
  · rw [playSamples, playSamplesLoop, if_neg hnle]
    simp [EPIPE, EAGAIN, ESTRPIPE, xrunRecovery]
  · rw [xrunRecovery]
    simp
  · intro w hw
    have h1 : w ≠ -EAGAIN := by
      rw [EAGAIN]
      omega
    have h2 : ¬ w < 0 := by omega
    rw [playSamples, playSamplesLoop, if_neg hnle]
    simp only [h1, if_false, h2]
    rw [playSamplesLoop, if_pos (by omega : period - w ≤ 0)]
  · intro err rest' h1 h2 h3
    rw [playSamples, playSamplesLoop, if_neg hnle]
    simp [h2, h1, h3]

/-- Witness for playSamples_underrun_recovery: a period of 64 frames
whose first write underruns. -/
theorem playSamples_underrun_recovery_w :
    playSamples 0 0 64 (-EPIPE :: [64]) = some (.ok 1 [64]) :=
  (playSamples_underrun_recovery 0 0 64 (by norm_num) [64]).1

/-! ## Claim C9 -/

/-- C9 counterexample: processing a NOTE_OFF for note 60 touches the
notes map at 60 yet leaves the note field at -1, not 60: note() does not
report the note touched by a NOTE_OFF. -/
theorem midi_note_after_noteoff_cex :
    (process ⟨-1, 0, 0, -1, fun _ => none, [⟨.noteoff, 60, 0, 0, 0⟩]⟩).notes 60
        = some false ∧
    (process ⟨-1, 0, 0, -1, fun _ => none, [⟨.noteoff, 60, 0, 0, 0⟩]⟩).note = -1 ∧
    (process ⟨-1, 0, 0, -1, fun _ => none, [⟨.noteoff, 60, 0, 0, 0⟩]⟩).note ≠ 60 := by
  have h := @process_cons_noteoff
    ⟨-1, 0, 0, -1, fun _ => none, [⟨.noteoff, 60, 0, 0, 0⟩]⟩
    ⟨.noteoff, 60, 0, 0, 0⟩ [] rfl rfl
  rw [h]
  refine ⟨?_, rfl, by decide⟩
  simp [mapInsert]

/-- C9 (as amended): after process(), note() returns the note of a
NOTE_ON event with nonzero velocity processed in that call, and -1 in
every other case — including after a NOTE_OFF, whose note it does not
record. -/
theorem midi_note_query (s : MidiController) :
    (s.queue = [] → (process s).note = -1) ∧
    (∀ e rest, s.queue = e :: rest →
      (e.type = .noteon → e.velocity ≠ 0 → (process s).note = e.note) ∧
      (e.type = .noteon → e.velocity = 0 → (process s).note = -1) ∧
      (e.type ≠ .noteon → (process s).note = -1)) := by
  refine ⟨fun h => by rw [process_empty_queue h], fun e rest h => ⟨?_, ?_, ?_⟩⟩
  · intro ht hv
    rw [process_cons_noteon h ht hv]
  · intro ht hv
    rw [process_cons_noteon_zero h ht hv]
  · intro ht
    cases hty : e.type with
    | noteon => exact absurd hty ht
    | noteoff => rw [process_cons_noteoff h hty]
    | control => rw [process_cons_control h hty]
    | pitchbend => rw [process_cons_pitchbend h hty]
    | unhandled => rw [process_cons_unhandled h hty]
    | empty => rw [process_cons_empty h hty]

/-- Witness for midi_note_query: after processing a PITCHBEND event the
note query yields -1. -/
theorem midi_note_query_w :
    (process ⟨-1, 0, 0, -1, fun _ => none, [⟨.pitchbend, 0, 0, 0, 1 / 2⟩]⟩).note
      = -1 :=
  ((midi_note_query _).2 ⟨.pitchbend, 0, 0, 0, 1 / 2⟩ [] rfl).2.2 (by decide)

/-! ## Claim C10 -/

/-- C10 counterexample: with period size 1 and two channels (per-period
sample count 2) on a buffer of length 2, the cpp play performs one write
of the chunk at offset 0, while the header play performs two writes of
overlapping chunks strided by the period size: the sequences of copies
and the numbers of writes differ. -/
theorem play_header_cpp_differ_cex :
    headerPlay (fun i => (i : ℤ)) 2 1 2 (by norm_num) =
      some [[0, 1], [1, 2]] ∧
    play (fun i => (i : ℤ)) 2 2 (by norm_num) = some [[0, 1]] := by
  constructor
  · rw [headerPlay, if_pos (by norm_num)]
    have hh := headerPlayLoop_eq (fun i => (i : ℤ)) 1 2 (by norm_num) 2 0
    norm_num at hh
    rw [hh]
    simp [copyChunk, List.range_succ]
  · rw [play, if_pos (by norm_num)]
    have hc := playLoop_eq (fun i => (i : ℤ)) 2 (by norm_num) 1 0
    norm_num at hc
    rw [hc]
    simp [copyChunk, List.range_succ]

/-- C10 (as amended): the templated header play and the cpp play agree —
same copies, same writes — exactly when the stride coincides, i.e. when
the per-period sample count equals periodSize (one channel); with more
channels the header version performs more, overlapping, writes. -/
theorem play_header_cpp_agree_mono (buffer : ℕ → ℤ) (length ps : ℕ)
    (h : 0 < ps) :
    headerPlay buffer length ps ps h = play buffer length ps h := by
  rw [headerPlay, play]
  by_cases hmod : length % ps = 0
  · rw [if_pos hmod, if_pos hmod]
    obtain ⟨m, hm⟩ : ps ∣ length := Nat.dvd_of_mod_eq_zero hmod
    subst hm
    have h0 : ps * m = 0 + m * ps := by ring
    rw [h0, headerPlayLoop_eq, playLoop_eq]
  · rw [if_neg hmod, if_neg hmod]

/-- Witness for play_header_cpp_agree_mono at period size 2, length 4. -/
theorem play_header_cpp_agree_mono_w :
    headerPlay (fun i => (i : ℤ)) 4 2 2 (by norm_num) =
      play (fun i => (i : ℤ)) 4 2 (by norm_num) :=
  play_header_cpp_agree_mono (fun i => (i : ℤ)) 4 2 (by norm_num)

end Synth
